import Mathlib

/-!
Verification development for the spatial-audio discovery and synchronization
engine.  The definitions below are a shallow embedding of the code in
`backend/apple_music_client.py`, `backend/scheduler.py` and
`backend/utils/credits_scraper.py`: pure computation is translated directly,
the database session becomes explicit state passing, and the network is an
explicit oracle parameter.
-/

namespace SpatialSelecta

/-- Timestamps (Python `datetime` values), modelled abstractly as a tick
count.  The code only ever stores `datetime.now()` or parsed dates and
compares nothing, so the internal structure of a timestamp is irrelevant. -/
structure Datetime where
  tick : Nat
deriving DecidableEq

/-- The `audioVariants` attribute of a raw API track (`attributes["audioVariants"]`).
The upstream schema may deliver a JSON array, a JSON object, or some other
shape; each element (for arrays) or value (for objects) is represented by the
string Python's `str()` would produce for it. -/
inductive VariantsField where
  | vlist (elems : List String)
  | vdict (vals : List String)
  | vother (s : String)
deriving DecidableEq

/-- The `audioTraits` attribute of a raw API track: a JSON array, a scalar
string, or some other shape. -/
inductive TraitsField where
  | tlist (elems : List String)
  | tstr (s : String)
  | tother (s : String)
deriving DecidableEq

/-- The `attributes` object of a raw track from the catalog API.  Only the
keys read by `check_spatial_audio_support` / `_extract_track_info` are
modelled; a `none` field models an absent key (Python `dict.get` returning
`None` / `key not in dict`). -/
structure TrackAttributes where
  audioVariants : Option VariantsField := none
  audioTraits : Option TraitsField := none
  name : Option String := none
  artistName : Option String := none
  albumName : Option String := none
  releaseDate : Option String := none
  url : Option String := none
  artworkUrlTemplate : Option String := none
  genreNames : List String := []
  durationInMillis : Option Nat := none
  isrc : Option String := none
  composerName : Option String := none
  trackNumber : Option Nat := none
  discNumber : Option Nat := none
deriving DecidableEq

/-- A raw track dictionary from the catalog API, carrying an id and an
attributes object.  `attributes = none` models a dictionary without an
attributes key. -/
structure TrackData where
  id : Option String := none
  attributes : Option TrackAttributes := none
deriving DecidableEq

/-- Tests whether `needle` occurs as a contiguous run inside `hay`. -/
def infixOfChars (needle : List Char) : List Char → Bool
  | [] => needle.isEmpty
  | c :: rest => needle.isPrefixOf (c :: rest) || infixOfChars needle rest

/-- Case-insensitive substring test used throughout the classifier: Python's
`needle in str(x).lower()` for an already-lowercase `needle`.  Lowercasing is
performed character-wise, as `String.toLower` does. -/
def containsCI (needle hay : String) : Bool :=
  infixOfChars needle.toList (hay.toList.map Char.toLower)

/-- One variant string matches when it contains `"atmos"` or `"dolby"`
case-insensitively (`apple_music_client.py`, lines 242 / 249). -/
def variantMatches (s : String) : Bool :=
  containsCI "atmos" s || containsCI "dolby" s

/-- One audio-trait string matches when it contains `"spatial"` or `"atmos"`
case-insensitively (`apple_music_client.py`, lines 260 / 265). -/
def traitMatches (s : String) : Bool :=
  containsCI "spatial" s || containsCI "atmos" s

/-- Result of `check_spatial_audio_support`.  `audio_variants` starts as the
empty list and is overwritten with the raw `audioVariants` field whenever that
attribute is present (whatever its shape). -/
structure SpatialInfo where
  has_spatial_audio : Bool
  has_dolby_atmos : Bool
  audio_variants : VariantsField
deriving DecidableEq

/-- Embedding of `AppleMusicClient.check_spatial_audio_support` (`apple_music_client.py`,
lines 212-269).  The primary signal scans `audioVariants` (list or dict shape)
for `"atmos"`/`"dolby"`; the loop sets both flags and breaks on the first
match, which is equivalent to `List.any`.  The fallback runs only when the
primary signal left `has_spatial_audio` false and scans `audioTraits` (list or
scalar string shape) for `"spatial"`/`"atmos"`, again setting both flags. -/
def check_spatial_audio_support (td : TrackData) : SpatialInfo :=
  match td.attributes with
  | none => { has_spatial_audio := false, has_dolby_atmos := false,
              audio_variants := .vlist [] }
  | some attrs =>
    let fromVariants : Bool :=
      match attrs.audioVariants with
      | some (.vlist xs) => xs.any variantMatches
      | some (.vdict vs) => vs.any variantMatches
      | some (.vother _) => false
      | none => false
    let variantsOut : VariantsField := attrs.audioVariants.getD (.vlist [])
    let spatialAfterVariants : Bool := fromVariants
    let atmosAfterVariants : Bool := fromVariants
    let fallbackFires : Bool :=
      if spatialAfterVariants then false
      else
        match attrs.audioTraits with
        | some (.tlist xs) => xs.any traitMatches
        | some (.tstr s) => traitMatches s
        | some (.tother _) => false
        | none => false
    { has_spatial_audio := spatialAfterVariants || fallbackFires
      has_dolby_atmos := atmosAfterVariants || fallbackFires
      audio_variants := variantsOut }

/-- In every branch of `check_spatial_audio_support` the two flags are
assigned together, so they are always equal. -/
lemma check_flags_eq (td : TrackData) :
    (check_spatial_audio_support td).has_dolby_atmos
      = (check_spatial_audio_support td).has_spatial_audio := by
  cases h : td.attributes <;> simp [check_spatial_audio_support, h]

/-- C5: an audio-variants attribute in list or object shape containing an
element whose string form contains "atmos" or "dolby" case-insensitively
yields `has_dolby_atmos = has_spatial_audio = true`; a track carrying neither
an audio-variants nor an audio-traits attribute yields both flags false and an
empty variant list. -/
theorem check_spatial_audio_support_spec (td : TrackData) :
    (∀ attrs xs, td.attributes = some attrs →
      (attrs.audioVariants = some (.vlist xs) ∨ attrs.audioVariants = some (.vdict xs)) →
      (∃ s ∈ xs, containsCI "atmos" s = true ∨ containsCI "dolby" s = true) →
      (check_spatial_audio_support td).has_dolby_atmos = true ∧
      (check_spatial_audio_support td).has_spatial_audio = true) ∧
    ((td.attributes = none ∨
       ∃ attrs, td.attributes = some attrs ∧
         attrs.audioVariants = none ∧ attrs.audioTraits = none) →
      check_spatial_audio_support td =
        { has_spatial_audio := false, has_dolby_atmos := false,
          audio_variants := .vlist [] }) := by
  constructor
  · rintro attrs xs ha (hv | hv) ⟨s, hs, hmatch⟩ <;>
      · have hany : xs.any variantMatches = true := by
          refine List.any_eq_true.mpr ⟨s, hs, ?_⟩
          rcases hmatch with h | h <;> simp [variantMatches, h]
        simp [check_spatial_audio_support, ha, hv, hany]
  · rintro (h | ⟨attrs, ha, hv, ht⟩)
    · simp [check_spatial_audio_support, h]
    · simp [check_spatial_audio_support, ha, hv, ht]

/-- Witness for `check_spatial_audio_support_spec` at concrete inputs. -/
theorem check_spatial_audio_support_spec_witness :
    (check_spatial_audio_support
        { attributes := some { audioVariants := some (.vlist ["Dolby Atmos"]) } }).has_dolby_atmos = true ∧
    check_spatial_audio_support { attributes := some {} } =
      { has_spatial_audio := false, has_dolby_atmos := false,
        audio_variants := .vlist [] } := by
  refine ⟨?_, ?_⟩
  · exact ((check_spatial_audio_support_spec
      { attributes := some { audioVariants := some (.vlist ["Dolby Atmos"]) } }).1
      { audioVariants := some (.vlist ["Dolby Atmos"]) } ["Dolby Atmos"] rfl
      (Or.inl rfl) ⟨"Dolby Atmos", by simp, Or.inl (by decide)⟩).1
  · exact (check_spatial_audio_support_spec { attributes := some {} }).2
      (Or.inr ⟨{}, rfl, rfl, rfl⟩)

/-- C6 counterexample: contrary to the claim, no raw track is ever classified
as spatial without also being classified as Dolby Atmos — the audio-traits
fallback sets both flags, so the two flags are always equal. -/
theorem no_spatial_without_atmos :
    ¬ ∃ td : TrackData, (check_spatial_audio_support td).has_spatial_audio = true ∧
        (check_spatial_audio_support td).has_dolby_atmos = false := by
  rintro ⟨td, hs, ha⟩
  rw [check_flags_eq td, hs] at ha
  exact Bool.noConfusion ha

/-- C6 amended: for every raw track, `has_dolby_atmos = true` implies
`has_spatial_audio = true`, and the converse implication also holds — the
classifier assigns the two flags together in every branch, so they are always
equal. -/
theorem hasAtmos_iff_hasSpatial (td : TrackData) :
    ((check_spatial_audio_support td).has_dolby_atmos = true ↔
      (check_spatial_audio_support td).has_spatial_audio = true) := by
  rw [check_flags_eq td]

/-! ## Playlist pagination (`get_playlist_tracks`, `apple_music_client.py` 166-210) -/

/-- The part of one playlist API response that the pagination logic reads:
`data[0].relationships.tracks.data` and the presence of a
`data[0].relationships.tracks.next` cursor. -/
structure PageResponse (α : Type) where
  tracks : List α
  next : Bool
deriving DecidableEq

/-- Embedding of `AppleMusicClient.get_playlist_tracks` (`apple_music_client.py`, lines
166-210), abstracted over the remote server.  `server req off` is the
response to a request with `limit[tracks] = req` and `offset[tracks] = off`;
`none` models a failed request or a response without the expected nesting, in
which case the code falls through and returns `[]`.  `remaining` is computed
with Python integer subtraction, hence over `Int`; the recursion fires only
when a next cursor exists and `remaining > 0`, and requests exactly the
remaining count at the advanced offset.  Python's unbounded recursion is
modelled with explicit fuel; exhausted fuel (`none`) stands for a recursion
that never returns, and propagates outward like the `RecursionError` it
models.  Python extends the page with the recursive result only when that
result is non-empty, which coincides with unconditional appending. -/
def get_playlist_tracks {α : Type} (server : Nat → Nat → Option (PageResponse α)) :
    Nat → Nat → Nat → Option (List α)
  | 0, _, _ => none
  | fuel + 1, limit, offset =>
    match server (min limit 100) offset with
    | none => some []
    | some resp =>
      let tracks := resp.tracks
      let remaining : Int := (limit : Int) - tracks.length
      if resp.next && decide (0 < remaining) then
        match get_playlist_tracks server fuel remaining.toNat (offset + tracks.length) with
        | some more => some (tracks ++ more)
        | none => none
      else
        some tracks

/-- A well-behaved playlist server holding the track list `pl`: a request for
`lim` tracks at offset `off` returns that slice and reports a next cursor
exactly when tracks remain beyond the returned page. -/
def honestServer {α : Type} (pl : List α) (lim off : Nat) : Option (PageResponse α) :=
  let page := (pl.drop off).take lim
  some { tracks := page, next := decide (off + page.length < pl.length) }

set_option maxRecDepth 40000 in
/-- C3: pagination stops when no next cursor remains or the remaining count
(limit minus tracks accumulated) is ≤ 0; a follow-up request asks exactly for
the remaining count at the advanced offset; and for a playlist of 150 tracks
with caller limit 120 the fetch returns exactly the first 120 tracks. -/
theorem get_playlist_tracks_spec :
    (∀ (α : Type) (server : Nat → Nat → Option (PageResponse α))
        (fuel limit offset : Nat) (resp : PageResponse α),
      server (min limit 100) offset = some resp →
      (resp.next = false ∨ (limit : Int) - resp.tracks.length ≤ 0) →
      get_playlist_tracks server (fuel + 1) limit offset = some resp.tracks) ∧
    (∀ (α : Type) (server : Nat → Nat → Option (PageResponse α))
        (fuel limit offset : Nat) (resp : PageResponse α),
      server (min limit 100) offset = some resp →
      resp.next = true → 0 < (limit : Int) - resp.tracks.length →
      get_playlist_tracks server (fuel + 1) limit offset =
        (get_playlist_tracks server fuel (limit - resp.tracks.length)
            (offset + resp.tracks.length)).map (resp.tracks ++ ·)) ∧
    get_playlist_tracks (honestServer (List.range 150)) 10 120 0 =
      some (List.range 120) := by
  refine ⟨?_, ?_, ?_⟩
  · intro α server fuel limit offset resp h hstop
    simp only [get_playlist_tracks, h]
    rcases hstop with h1 | h1
    · simp [h1]
    · have hnot : ¬ (0 : Int) < (limit : Int) - resp.tracks.length := by omega
      simp [hnot]
  · intro α server fuel limit offset resp h hnext hlt
    have htn : ((limit : Int) - (resp.tracks.length : Nat)).toNat
        = limit - resp.tracks.length := Int.toNat_sub _ _
    simp only [get_playlist_tracks, h, hnext, decide_eq_true hlt, Bool.and_self,
      if_true, htn]
    cases get_playlist_tracks server fuel (limit - resp.tracks.length)
        (offset + resp.tracks.length) <;> simp
  · decide

/-- Witness for `get_playlist_tracks_spec`: the stopping clause applied to a
50-track playlist with limit 100 — the first page exhausts the playlist, no
next cursor is reported, and the fetch returns the whole playlist. -/
theorem get_playlist_tracks_spec_witness :
    get_playlist_tracks (honestServer (List.range 50)) 1 100 0 =
      some (List.range 50) :=
  get_playlist_tracks_spec.1 Nat (honestServer (List.range 50)) 0 100 0
    { tracks := List.range 50, next := false } (by decide) (Or.inl rfl)

/-! ## Credits scraping (`credits_scraper.py`) -/

/-- One extracted credit: the dictionaries built by `_parse_credit_text`
always carry `name`, `role` and `slug` keys. -/
structure Credit where
  name : String
  role : String
  slug : String
deriving DecidableEq

/-- The dedup key built at line 141 of `credits_scraper.py`: lowercased name
and lowercased role joined by a colon; lowercasing is character-wise as in
the Python string lower method. -/
def creditKey (c : Credit) : String :=
  String.mk (c.name.toList.map Char.toLower) ++ ":"
    ++ String.mk (c.role.toList.map Char.toLower)

/-- The sanity bounds of `credits_scraper.py`, line 145:
`2 < len(name) < 100 and len(role) < 100`. -/
def creditValid (c : Credit) : Bool :=
  decide (2 < c.name.length) && decide (c.name.length < 100)
    && decide (c.role.length < 100)

/-- The dedup-and-validate loop of `_parse_credits` (`credits_scraper.py`,
lines 135-148): the key joins `seen` as soon as it is first met, and the
credit is kept only if additionally the length bounds hold. -/
def dedupCredits (seen : List String) : List Credit → List Credit
  | [] => []
  | c :: cs =>
    let key := creditKey c
    if key ∈ seen then dedupCredits seen cs
    else if creditValid c then c :: dedupCredits (key :: seen) cs
    else dedupCredits (key :: seen) cs

/-- Embedding of `CreditsScraper._parse_credits` (`credits_scraper.py`, lines 73-148).
Strategy 1 (embedded JSON) funnels through `_extract_credits_from_json`,
which is a placeholder that always returns the empty list in the source.
Strategy 2 (DOM selectors) and strategy 3 (regex over the page text) run
external HTML machinery, so their raw outputs are oracle inputs here; any
in-strategy exception yields the empty contribution.  Strategy 3 is consulted
only when the first two produced nothing, and the combined list then passes
through the dedup-and-validate loop. -/
def parseCredits (domCredits regexCredits : List Credit) : List Credit :=
  let jsonCredits : List Credit := []
  let collected := jsonCredits ++ domCredits
  let collected2 := if collected.isEmpty then regexCredits else collected
  dedupCredits [] collected2

/-- The possible outcomes of the HTTP fetch inside `fetch_credits`
(`credits_scraper.py`, lines 57-71): an `httpx.HTTPError`, any other
exception, or a successful response whose parse strategies yield the given
raw lists. -/
inductive FetchOutcome where
  | httpError
  | otherError
  | ok (domCredits regexCredits : List Credit)

/-- Embedding of `CreditsScraper.fetch_credits` (`credits_scraper.py`, lines 47-71): both
exception arms return `[]`; a successful fetch delegates to
`_parse_credits`. -/
def fetch_credits : FetchOutcome → List Credit
  | .httpError => []
  | .otherError => []
  | .ok dom rx => parseCredits dom rx

lemma dedupCredits_key_nodup (cs : List Credit) :
    ∀ seen : List String,
      ((dedupCredits seen cs).map creditKey).Nodup ∧
      ∀ c ∈ dedupCredits seen cs, creditKey c ∉ seen := by
  induction cs with
  | nil => intro seen; simp [dedupCredits]
  | cons c cs ih =>
    intro seen
    by_cases hseen : creditKey c ∈ seen
    · simp only [dedupCredits, if_pos hseen]
      exact (ih seen)
    · by_cases hval : creditValid c = true
      · simp only [dedupCredits, if_neg hseen, if_pos hval]
        obtain ⟨hnd, hnotin⟩ := ih (creditKey c :: seen)
        refine ⟨?_, ?_⟩
        · simp only [List.map_cons, List.nodup_cons]
          exact ⟨fun hmem => by
            obtain ⟨d, hd, hkey⟩ := List.mem_map.mp hmem
            exact (hnotin d hd) (hkey ▸ List.mem_cons_self _ _), hnd⟩
        · intro d hd
          rcases List.mem_cons.mp hd with rfl | hd'
          · exact hseen
          · exact fun hin => (hnotin d hd') (List.mem_cons_of_mem _ hin)
      · simp only [dedupCredits, if_neg hseen, if_neg hval]
        obtain ⟨hnd, hnotin⟩ := ih (creditKey c :: seen)
        exact ⟨hnd, fun d hd hin => (hnotin d hd) (List.mem_cons_of_mem _ hin)⟩

/-- C9: `fetch_credits` never raises — every outcome (HTTP error, any other
exception, malformed HTML whose strategies all come up empty) yields a list,
total failure yields the empty list, and every returned list is deduplicated
by the pair (lowercased name, lowercased role). -/
theorem fetch_credits_spec (o : FetchOutcome) :
    (fetch_credits o).Pairwise (fun a b =>
      ¬(a.name.toList.map Char.toLower = b.name.toList.map Char.toLower ∧
        a.role.toList.map Char.toLower = b.role.toList.map Char.toLower)) ∧
    ((o = .httpError ∨ o = .otherError ∨ o = .ok [] []) → fetch_credits o = []) := by
  constructor
  · have hpair : ∀ l : List Credit, (l.map creditKey).Nodup →
        l.Pairwise (fun a b =>
          ¬(a.name.toList.map Char.toLower = b.name.toList.map Char.toLower ∧
            a.role.toList.map Char.toLower = b.role.toList.map Char.toLower)) := by
      intro l hnd
      have := (List.pairwise_map).mp hnd
      refine this.imp (fun {a b} hne hp => hne ?_)
      obtain ⟨h1, h2⟩ := hp
      unfold creditKey
      rw [h1, h2]
    cases o with
    | httpError => simp [fetch_credits]
    | otherError => simp [fetch_credits]
    | ok dom rx =>
      exact hpair _ (dedupCredits_key_nodup _ []).1
  · rintro (rfl | rfl | rfl) <;> rfl

/-- Witness for `fetch_credits_spec`: total failure (no strategy yields
anything) returns the empty list. -/
theorem fetch_credits_spec_witness :
    fetch_credits (.ok [] []) = [] :=
  (fetch_credits_spec (.ok [] [])).2 (Or.inr (Or.inr rfl))

/-! ## Track extraction (`_extract_track_info`, `_parse_release_date`) -/

/-- One region-availability record attached to a discovered track by
`check_region_availability` (`apple_music_client.py`, lines 378-382). -/
structure RegionRecord where
  storefront : String
  is_available : Bool
  format : String
deriving DecidableEq

/-- The `metadata` sub-dictionary built by `_extract_track_info`
(`apple_music_client.py`, lines 434-443).  `sync` stores its JSON
serialization (`json.dumps`); the serialization step is modelled by storing
the value itself. -/
structure TrackMetadata where
  genre : List String
  duration_ms : Option Nat
  isrc : Option String
  audio_variants : VariantsField
  artwork_url : Option String
  composer : Option String
  track_number : Option Nat
  disc_number : Option Nat
deriving DecidableEq

/-- A `DiscoveredTrack`: the dictionary produced by `_extract_track_info`
(`apple_music_client.py`, lines 423-444), optionally augmented in place with
`region_availability` (lines 332-335). -/
structure DiscoveredTrack where
  apple_music_id : Option String
  title : String
  artist : String
  album : String
  format : String
  platform : String
  release_date : Datetime
  atmos_release_date : Option Datetime
  album_art : String
  music_link : Option String
  metadata : TrackMetadata
  region_availability : Option (List RegionRecord) := none
deriving DecidableEq

/-- Embedding of `AppleMusicClient._parse_release_date` (`apple_music_client.py`, lines
446-466).  A falsy date string (`None` or `""`) yields `datetime.now()`.  The
concrete date grammar (the `%Y-%m-%d` branch and the ISO branch) is
abstracted into the `parse` parameter; `parse s = none` models the
`ValueError`/`AttributeError` arm, which also falls back to
`datetime.now()`.  The function always produces a datetime — never `None`. -/
def _parse_release_date (parse : String → Option Datetime) (now : Datetime)
    (ds : Option String) : Datetime :=
  match ds with
  | none => now
  | some s => if s = "" then now else (parse s).getD now

/-- The genre-to-emoji table of `_get_album_art_emoji`
(`apple_music_client.py`, lines 478-503), in source (= Python dict insertion)
order. -/
def genre_emojis : List (String × String) :=
  [("Pop", "🎵"), ("Rock", "🎸"), ("Hip-Hop/Rap", "🎤"), ("Hip-Hop", "🎤"),
   ("Rap", "🎤"), ("Jazz", "🎷"), ("Classical", "🎻"), ("Electronic", "🎹"),
   ("Dance", "💃"), ("Country", "🤠"), ("R&B/Soul", "💿"), ("R&B", "💿"),
   ("Soul", "💿"), ("Metal", "🤘"), ("Alternative", "🎧"), ("Indie", "🎧"),
   ("Latin", "💃"), ("Reggae", "🌴"), ("Blues", "🎺"), ("Folk", "🪕"),
   ("Soundtrack", "🎬"), ("K-Pop", "⭐"), ("J-Pop", "🌸"), ("Ambient", "🌌")]

/-- Python's `key.lower() in genre.lower()` partial-match test. -/
def containsLowered (needle hay : String) : Bool :=
  infixOfChars (needle.toList.map Char.toLower) (hay.toList.map Char.toLower)

/-- Embedding of `AppleMusicClient._get_album_art_emoji` (`apple_music_client.py`, lines
468-514): for each genre in order, exact table match first, then
case-insensitive partial match over the table in order; default 🎵. -/
def _get_album_art_emoji : List String → String
  | [] => "🎵"
  | g :: gs =>
    match genre_emojis.find? (fun p => p.1 == g) with
    | some p => p.2
    | none =>
      match genre_emojis.find? (fun p => containsLowered p.1 g) with
      | some p => p.2
      | none => _get_album_art_emoji gs

/-- Embedding of `AppleMusicClient._extract_track_info` (`apple_music_client.py`, lines
389-444).  `artworkUrlTemplate` models `artwork.get("url", "")` for a truthy
`artwork` object (`none` when the artwork object is absent or empty);
`atmos_release_date` is the release date itself when the track has Dolby
Atmos and `None` otherwise (lines 416-421). -/
def _extract_track_info (parse : String → Option Datetime) (now : Datetime)
    (td : TrackData) (si : SpatialInfo) : DiscoveredTrack :=
  let attrs := td.attributes.getD {}
  let artwork_url : Option String :=
    match attrs.artworkUrlTemplate with
    | none => none
    | some t =>
      if t = "" then none
      else some ((t.replace "\x7bw\x7d" "300").replace "\x7bh\x7d" "300")
  let release_date := _parse_release_date parse now attrs.releaseDate
  let atmos_release_date := if si.has_dolby_atmos then some release_date else none
  { apple_music_id := td.id
    title := attrs.name.getD "Unknown"
    artist := attrs.artistName.getD "Unknown"
    album := attrs.albumName.getD "Unknown"
    format := if si.has_dolby_atmos then "Dolby Atmos" else "Spatial Audio"
    platform := "Apple Music"
    release_date := release_date
    atmos_release_date := atmos_release_date
    album_art := _get_album_art_emoji attrs.genreNames
    music_link := attrs.url
    metadata := { genre := attrs.genreNames
                  duration_ms := attrs.durationInMillis
                  isrc := attrs.isrc
                  audio_variants := si.audio_variants
                  artwork_url := artwork_url
                  composer := attrs.composerName
                  track_number := attrs.trackNumber
                  disc_number := attrs.discNumber }
    region_availability := none }

/-- C10: for every track produced by discovery extraction,
`atmos_release_date` is non-null exactly when the format is `"Dolby Atmos"`,
in which case it equals the release date; a spatial-but-not-Atmos
classification yields format `"Spatial Audio"` with a null
`atmos_release_date`; and a missing or unparseable upstream release date is
replaced by the current time (the release date is never null). -/
theorem extract_track_info_spec (parse : String → Option Datetime)
    (now : Datetime) (td : TrackData) (si : SpatialInfo) :
    ((_extract_track_info parse now td si).atmos_release_date ≠ none ↔
      (_extract_track_info parse now td si).format = "Dolby Atmos") ∧
    ((_extract_track_info parse now td si).format = "Dolby Atmos" →
      (_extract_track_info parse now td si).atmos_release_date =
        some (_extract_track_info parse now td si).release_date) ∧
    (si.has_dolby_atmos = false →
      (_extract_track_info parse now td si).format = "Spatial Audio" ∧
      (_extract_track_info parse now td si).atmos_release_date = none) ∧
    ((td.attributes.getD {}).releaseDate = none →
      (_extract_track_info parse now td si).release_date = now) ∧
    (∀ s, (td.attributes.getD {}).releaseDate = some s → s ≠ "" →
      parse s = none → (_extract_track_info parse now td si).release_date = now) := by
  have hne : ("Spatial Audio" : String) ≠ "Dolby Atmos" := by decide
  cases h : si.has_dolby_atmos
  · refine ⟨?_, ?_, ?_, ?_, ?_⟩
    · simp [_extract_track_info, h, hne]
    · simp [_extract_track_info, h, hne]
    · simp [_extract_track_info, h]
    · intro hrd; simp [_extract_track_info, _parse_release_date, h, hrd]
    · intro s hrd hs hp
      simp [_extract_track_info, _parse_release_date, h, hrd, hs, hp]
  · refine ⟨?_, ?_, ?_, ?_, ?_⟩
    · simp [_extract_track_info, h]
    · simp [_extract_track_info, h]
    · simp [h]
    · intro hrd; simp [_extract_track_info, _parse_release_date, h, hrd]
    · intro s hrd hs hp
      simp [_extract_track_info, _parse_release_date, h, hrd, hs, hp]

/-- Witness for `extract_track_info_spec` at a concrete input: a track with
no parseable release date classified as Dolby Atmos. -/
theorem extract_track_info_spec_witness :
    ((_extract_track_info (fun _ => none) ⟨7⟩ {}
        ⟨true, true, .vlist []⟩).atmos_release_date ≠ none ↔
      (_extract_track_info (fun _ => none) ⟨7⟩ {}
        ⟨true, true, .vlist []⟩).format = "Dolby Atmos") ∧
    ((_extract_track_info (fun _ => none) ⟨7⟩ {}
        ⟨true, true, .vlist []⟩).format = "Dolby Atmos" →
      (_extract_track_info (fun _ => none) ⟨7⟩ {}
        ⟨true, true, .vlist []⟩).atmos_release_date =
        some (_extract_track_info (fun _ => none) ⟨7⟩ {}
          ⟨true, true, .vlist []⟩).release_date) :=
  ⟨(extract_track_info_spec (fun _ => none) ⟨7⟩ {} ⟨true, true, .vlist []⟩).1,
   (extract_track_info_spec (fun _ => none) ⟨7⟩ {} ⟨true, true, .vlist []⟩).2.1⟩

/-! ## All-sources discovery aggregation (`discover_all_spatial_audio_tracks`) -/

/-- The `add_tracks` helper of `discover_all_spatial_audio_tracks`
(`apple_music_client.py`, lines 737-743), processing one sub-strategy result
list against the running `(seen_ids, all_tracks)` state.  A track joins the
output only when its `apple_music_id` is truthy (not `None`, not `""`) and
not yet in `seen_ids`. -/
def add_tracks : List String × List DiscoveredTrack → List DiscoveredTrack →
    List String × List DiscoveredTrack
  | st, [] => st
  | (seen, acc), t :: ts =>
    match t.apple_music_id with
    | some tid =>
      if tid ≠ "" ∧ tid ∉ seen then add_tracks (tid :: seen, acc ++ [t]) ts
      else add_tracks (seen, acc) ts
    | none => add_tracks (seen, acc) ts

/-- Embedding of `AppleMusicClient.discover_all_spatial_audio_tracks`
(`apple_music_client.py`, lines 717-772), abstracted over the four
sub-strategy result lists (curated spatial playlists, new-music/chart
playlists, chart-album deep dive, keyword search — each produced by external
network crawling): the four lists are folded through `add_tracks` in this
fixed order against one shared deduplication state. -/
def discover_all_spatial_audio_tracks
    (l1 l2 l3 l4 : List DiscoveredTrack) : List DiscoveredTrack :=
  (add_tracks (add_tracks (add_tracks (add_tracks ([], []) l1) l2) l3) l4).2

/-- The tracks `add_tracks` appends for input `ts` given already-seen ids. -/
def keptNew (seen : List String) : List DiscoveredTrack → List DiscoveredTrack
  | [] => []
  | t :: ts =>
    match t.apple_music_id with
    | some tid =>
      if tid ≠ "" ∧ tid ∉ seen then t :: keptNew (tid :: seen) ts
      else keptNew seen ts
    | none => keptNew seen ts

/-- The seen-id state after `add_tracks` processes `ts`. -/
def seenAfter (seen : List String) : List DiscoveredTrack → List String
  | [] => seen
  | t :: ts =>
    match t.apple_music_id with
    | some tid =>
      if tid ≠ "" ∧ tid ∉ seen then seenAfter (tid :: seen) ts
      else seenAfter seen ts
    | none => seenAfter seen ts

lemma add_tracks_eq (ts : List DiscoveredTrack) :
    ∀ seen acc, add_tracks (seen, acc) ts = (seenAfter seen ts, acc ++ keptNew seen ts) := by
  induction ts with
  | nil => intro seen acc; simp [add_tracks, seenAfter, keptNew]
  | cons t ts ih =>
    intro seen acc
    cases h : t.apple_music_id with
    | none => simp [add_tracks, seenAfter, keptNew, h, ih]
    | some tid =>
      by_cases hc : tid ≠ "" ∧ tid ∉ seen
      · simp [add_tracks, seenAfter, keptNew, h, hc, ih]
      · simp [add_tracks, seenAfter, keptNew, h, hc, ih]

lemma keptNew_append (xs : List DiscoveredTrack) :
    ∀ seen ys, keptNew seen (xs ++ ys)
      = keptNew seen xs ++ keptNew (seenAfter seen xs) ys := by
  induction xs with
  | nil => intro seen ys; simp [keptNew, seenAfter]
  | cons t ts ih =>
    intro seen ys
    cases h : t.apple_music_id with
    | none => simp [keptNew, seenAfter, h, ih]
    | some tid =>
      by_cases hc : tid ≠ "" ∧ tid ∉ seen
      · simp [keptNew, seenAfter, h, hc, ih]
      · simp [keptNew, seenAfter, h, hc, ih]

lemma discover_all_eq_keptNew (l1 l2 l3 l4 : List DiscoveredTrack) :
    discover_all_spatial_audio_tracks l1 l2 l3 l4
      = keptNew [] (l1 ++ l2 ++ l3 ++ l4) := by
  simp [discover_all_spatial_audio_tracks, add_tracks_eq, keptNew_append]

lemma keptNew_subset (L : List DiscoveredTrack) :
    ∀ seen, ∀ t ∈ keptNew seen L, t ∈ L := by
  induction L with
  | nil => intro seen t ht; simp [keptNew] at ht
  | cons x ts ih =>
    intro seen t ht
    cases h : x.apple_music_id with
    | none =>
      simp only [keptNew, h] at ht
      exact List.mem_cons_of_mem _ (ih seen t ht)
    | some tid =>
      simp only [keptNew, h] at ht
      by_cases hc : tid ≠ "" ∧ tid ∉ seen
      · rw [if_pos hc] at ht
        rcases List.mem_cons.mp ht with rfl | ht'
        · exact List.mem_cons_self _ _
        · exact List.mem_cons_of_mem _ (ih _ t ht')
      · rw [if_neg hc] at ht
        exact List.mem_cons_of_mem _ (ih seen t ht)

lemma keptNew_ids (L : List DiscoveredTrack) :
    ∀ seen, ∀ t ∈ keptNew seen L,
      ∃ tid, t.apple_music_id = some tid ∧ tid ≠ "" ∧ tid ∉ seen := by
  induction L with
  | nil => intro seen t ht; simp [keptNew] at ht
  | cons x ts ih =>
    intro seen t ht
    cases h : x.apple_music_id with
    | none => simp only [keptNew, h] at ht; exact ih seen t ht
    | some tid =>
      simp only [keptNew, h] at ht
      by_cases hc : tid ≠ "" ∧ tid ∉ seen
      · rw [if_pos hc] at ht
        rcases List.mem_cons.mp ht with rfl | ht'
        · exact ⟨tid, h, hc⟩
        · obtain ⟨tid', h1, h2, h3⟩ := ih _ t ht'
          exact ⟨tid', h1, h2, fun hmem => h3 (List.mem_cons_of_mem _ hmem)⟩
      · rw [if_neg hc] at ht
        exact ih seen t ht

lemma keptNew_pairwise (L : List DiscoveredTrack) :
    ∀ seen, (keptNew seen L).Pairwise
      (fun a b => a.apple_music_id ≠ b.apple_music_id) := by
  induction L with
  | nil => intro seen; simp [keptNew]
  | cons x ts ih =>
    intro seen
    cases h : x.apple_music_id with
    | none => simp only [keptNew, h]; exact ih seen
    | some tid =>
      simp only [keptNew, h]
      by_cases hc : tid ≠ "" ∧ tid ∉ seen
      · rw [if_pos hc]
        refine List.pairwise_cons.mpr ⟨?_, ih _⟩
        intro u hu
        obtain ⟨tid', h1, _, h3⟩ := keptNew_ids ts _ u hu
        rw [h, h1]
        intro heq
        injection heq with heq
        rw [← heq] at h3
        exact h3 (List.mem_cons_self _ _)
      · rw [if_neg hc]; exact ih seen

lemma keptNew_first_occurrence (L : List DiscoveredTrack) :
    ∀ seen, ∀ t ∈ keptNew seen L,
      ∃ pre post, L = pre ++ t :: post ∧
        ∀ u ∈ pre, u.apple_music_id ≠ t.apple_music_id := by
  induction L with
  | nil => intro seen t ht; simp [keptNew] at ht
  | cons x ts ih =>
    intro seen t ht
    obtain ⟨tidT, hT1, hT2, hT3⟩ := keptNew_ids (x :: ts) seen t ht
    cases h : x.apple_music_id with
    | none =>
      simp only [keptNew, h] at ht
      obtain ⟨pre, post, heq, hpre⟩ := ih seen t ht
      refine ⟨x :: pre, post, by simp [heq], ?_⟩
      intro u hu
      rcases List.mem_cons.mp hu with rfl | hu'
      · rw [h, hT1]; exact fun hcon => Option.noConfusion hcon
      · exact hpre u hu'
    | some tid =>
      simp only [keptNew, h] at ht
      by_cases hc : tid ≠ "" ∧ tid ∉ seen
      · rw [if_pos hc] at ht
        rcases List.mem_cons.mp ht with rfl | ht'
        · exact ⟨[], ts, rfl, by simp⟩
        · obtain ⟨tid', h1, h2, h3⟩ := keptNew_ids ts _ t ht'
          obtain ⟨pre, post, heq, hpre⟩ := ih _ t ht'
          refine ⟨x :: pre, post, by simp [heq], ?_⟩
          intro u hu
          rcases List.mem_cons.mp hu with rfl | hu'
          · rw [h, h1]
            intro heq2
            injection heq2 with heq2
            rw [← heq2] at h3
            exact h3 (List.mem_cons_self _ _)
          · exact hpre u hu'
      · rw [if_neg hc] at ht
        obtain ⟨pre, post, heq, hpre⟩ := ih seen t ht
        obtain ⟨tid', h1, h2, h3⟩ := keptNew_ids ts seen t ht
        refine ⟨x :: pre, post, by simp [heq], ?_⟩
        intro u hu
        rcases List.mem_cons.mp hu with rfl | hu'
        · rw [h, h1]
          intro heq2
          injection heq2 with heq2
          rcases not_and_or.mp hc with hc1 | hc2
          · exact h2 (heq2 ▸ not_not.mp hc1)
          · exact h3 (heq2 ▸ not_not.mp hc2)
        · exact hpre u hu'

lemma keptNew_complete (L : List DiscoveredTrack) :
    ∀ seen, ∀ u ∈ L, ∀ tid, u.apple_music_id = some tid → tid ≠ "" →
      tid ∉ seen → ∃ t ∈ keptNew seen L, t.apple_music_id = some tid := by
  induction L with
  | nil => intro seen u hu; simp at hu
  | cons x ts ih =>
    intro seen u hu tid hid hne hnotin
    cases h : x.apple_music_id with
    | none =>
      simp only [keptNew, h]
      rcases List.mem_cons.mp hu with rfl | hu'
      · rw [h] at hid; exact Option.noConfusion hid
      · exact ih seen u hu' tid hid hne hnotin
    | some tidx =>
      simp only [keptNew, h]
      by_cases hc : tidx ≠ "" ∧ tidx ∉ seen
      · rw [if_pos hc]
        by_cases heq : tid = tidx
        · exact ⟨x, List.mem_cons_self _ _, by rw [h, heq]⟩
        · have hu' : u ∈ ts := by
            rcases List.mem_cons.mp hu with rfl | hu'
            · rw [h] at hid; injection hid with hid
              exact absurd hid.symm heq
            · exact hu'
          obtain ⟨t, ht, htid⟩ := ih (tidx :: seen) u hu' tid hid hne
            (by intro hmem; rcases List.mem_cons.mp hmem with h' | h'
                · exact heq h'
                · exact hnotin h')
          exact ⟨t, List.mem_cons_of_mem _ ht, htid⟩
      · rw [if_neg hc]
        have hu' : u ∈ ts := by
          rcases List.mem_cons.mp hu with rfl | hu'
          · rw [h] at hid; injection hid with hid
            subst hid
            exact absurd ⟨hne, hnotin⟩ hc
          · exact hu'
        exact ih seen u hu' tid hid hne hnotin

/-- C2: the all-sources discovery never returns two entries sharing an
external id; every returned entry is a verbatim element of the concatenation
of the four sub-strategy lists (in their fixed order) occurring at a position
with no earlier same-id element — i.e. the copy from the earliest
sub-strategy that discovered it; and every truthy external id occurring in
any sub-strategy list survives into the output (later duplicates are dropped,
never merged). -/
theorem discover_all_spec (l1 l2 l3 l4 : List DiscoveredTrack) :
    (discover_all_spatial_audio_tracks l1 l2 l3 l4).Pairwise
        (fun a b => a.apple_music_id ≠ b.apple_music_id) ∧
    (∀ t ∈ discover_all_spatial_audio_tracks l1 l2 l3 l4,
      ∃ pre post, l1 ++ l2 ++ l3 ++ l4 = pre ++ t :: post ∧
        ∀ u ∈ pre, u.apple_music_id ≠ t.apple_music_id) ∧
    (∀ u ∈ l1 ++ l2 ++ l3 ++ l4, ∀ tid, u.apple_music_id = some tid →
      tid ≠ "" → ∃ t ∈ discover_all_spatial_audio_tracks l1 l2 l3 l4,
        t.apple_music_id = some tid) := by
  rw [discover_all_eq_keptNew]
  refine ⟨keptNew_pairwise _ [], ?_, ?_⟩
  · intro t ht
    exact keptNew_first_occurrence _ [] t ht
  · intro u hu tid hid hne
    exact keptNew_complete _ [] u hu tid hid hne (by simp)

/-- A concrete sample track used by witnesses. -/
def sampleTrack (tid : Option String) (ttl : String) : DiscoveredTrack :=
  { apple_music_id := tid
    title := ttl
    artist := "a"
    album := "b"
    format := "Dolby Atmos"
    platform := "Apple Music"
    release_date := ⟨0⟩
    atmos_release_date := none
    album_art := "🎵"
    music_link := none
    metadata := { genre := []
                  duration_ms := none
                  isrc := none
                  audio_variants := .vlist []
                  artwork_url := none
                  composer := none
                  track_number := none
                  disc_number := none } }

/-- Witness for `discover_all_spec`: with the same external id appearing in
sub-strategy lists one and two, an entry with that id survives into the
output. -/
theorem discover_all_spec_witness :
    ∃ t ∈ discover_all_spatial_audio_tracks
        [sampleTrack (some "A") "x"] [sampleTrack (some "A") "y"] [] [],
      t.apple_music_id = some "A" :=
  (discover_all_spec [sampleTrack (some "A") "x"] [sampleTrack (some "A") "y"]
      [] []).2.2 (sampleTrack (some "A") "x") (by simp) "A" rfl (by decide)

/-! ## The persistent store and `sync_spatial_audio_tracks` (`scheduler.py` 240-343) -/

/-- A persisted `Track` row (`models.py`).  `id` is the local surrogate key,
`apple_music_id` the natural key.  The community/rating columns
(`hall_of_shame`, `avg_immersiveness`, `review_summary`) are neither read nor
written by any code path modelled here and are omitted.  `extra_metadata`
stores `json.dumps` of the metadata dictionary, modelled by the value
itself. -/
structure TrackRow where
  id : Nat
  title : String
  artist : String
  album : String
  format : String
  platform : String
  release_date : Datetime
  atmos_release_date : Option Datetime
  album_art : String
  music_link : Option String
  apple_music_id : Option String
  extra_metadata : TrackMetadata
  discovered_at : Datetime
  updated_at : Datetime
deriving DecidableEq

/-- A persisted `RegionAvailability` row (`models.py`). -/
structure RegionRow where
  track_id : Nat
  storefront : String
  is_available : Bool
  format : String
deriving DecidableEq

/-- The database state seen through a session: track rows, region rows, and
the next surrogate id handed out by `db.flush()`. -/
structure DB where
  tracks : List TrackRow
  regions : List RegionRow
  nextId : Nat
deriving DecidableEq

/-- The lookup predicate of `scheduler.py`, lines 270-272:
`Track.apple_music_id == track_data["apple_music_id"]`.  SQLAlchemy turns a
`None` comparison value into `IS NULL`, which `Option` equality captures. -/
def rowMatches (td : DiscoveredTrack) (r : TrackRow) : Bool :=
  r.apple_music_id == td.apple_music_id

/-- Mutate the first list element satisfying `p` in place (the ORM object
returned by `.first()` is updated by attribute assignment). -/
def updateFirst {α : Type} (p : α → Bool) (f : α → α) : List α → List α
  | [] => []
  | x :: xs => if p x then f x :: xs else x :: updateFirst p f xs

/-- The update branch of `sync_spatial_audio_tracks` (`scheduler.py`, lines
274-285): the mutable fields are overwritten and `updated_at` bumped;
`platform`, `album_art`, `apple_music_id`, `discovered_at` and the community
fields are left untouched. -/
def updateRow (now : Datetime) (td : DiscoveredTrack) (r : TrackRow) : TrackRow :=
  { r with
    title := td.title
    artist := td.artist
    album := td.album
    format := td.format
    release_date := td.release_date
    atmos_release_date := td.atmos_release_date
    music_link := td.music_link
    extra_metadata := td.metadata
    updated_at := now }

/-- The insert branch of `sync_spatial_audio_tracks` (`scheduler.py`, lines
287-304): a fresh `Track` with `discovered_at = now`; `updated_at` takes its
column default, also `now`. -/
def newRow (now : Datetime) (rid : Nat) (td : DiscoveredTrack) : TrackRow :=
  { id := rid
    title := td.title
    artist := td.artist
    album := td.album
    format := td.format
    platform := td.platform
    release_date := td.release_date
    atmos_release_date := td.atmos_release_date
    album_art := td.album_art
    music_link := td.music_link
    apple_music_id := td.apple_music_id
    extra_metadata := td.metadata
    discovered_at := now
    updated_at := now }

/-- A new `RegionAvailability` row (`scheduler.py`, lines 319-325). -/
def mkRegionRow (tid : Nat) (g : RegionRecord) : RegionRow :=
  { track_id := tid
    storefront := g.storefront
    is_available := g.is_available
    format := g.format }

/-- The region-availability block of `sync_spatial_audio_tracks`
(`scheduler.py`, lines 311-325): when the discovered track carries region
data, all existing rows for this track id are deleted and the supplied
records inserted. -/
def applyRegions (td : DiscoveredTrack) (tid : Nat) (db : DB) : DB :=
  match td.region_availability with
  | none => db
  | some regs =>
    { db with regions := db.regions.filter (fun g => !(g.track_id == tid))
        ++ regs.map (mkRegionRow tid) }

/-- The statistics returned by `sync_spatial_audio_tracks`. -/
structure SyncStats where
  tracks_added : Nat
  tracks_updated : Nat
deriving DecidableEq

/-- One iteration of the per-track loop of `sync_spatial_audio_tracks`
(`scheduler.py`, lines 267-329): look up by external id; update the found
row or insert a new one (its id assigned at `db.flush()`), then replace its
region-availability set if region data is attached. -/
def processTrack (now : Datetime) (db : DB) (stats : SyncStats)
    (td : DiscoveredTrack) : DB × SyncStats :=
  match db.tracks.find? (rowMatches td) with
  | some r =>
    let db1 : DB :=
      { db with tracks := updateFirst (rowMatches td) (updateRow now td) db.tracks }
    (applyRegions td r.id db1,
     { stats with tracks_updated := stats.tracks_updated + 1 })
  | none =>
    let r := newRow now db.nextId td
    let db1 : DB := { db with tracks := db.tracks ++ [r], nextId := db.nextId + 1 }
    (applyRegions td r.id db1,
     { stats with tracks_added := stats.tracks_added + 1 })

/-- The full per-track loop over a discovery batch. -/
def processBatch (now : Datetime) (db : DB) (stats : SyncStats) :
    List DiscoveredTrack → DB × SyncStats
  | [] => (db, stats)
  | td :: rest =>
    let st := processTrack now db stats td
    processBatch now st.1 st.2 rest

/-- A database session: the durable (committed) state and the pending
in-session state the loop operates on (queries see flushed-but-uncommitted
rows). -/
structure Session where
  durable : DB
  pending : DB
deriving DecidableEq

/-- Embedding of `sync_spatial_audio_tracks` (`scheduler.py`, lines 240-343), abstracted
over the discovery output (the batch) and the commit outcome.  The loop runs
against the session's pending state; the final `db.commit()` either makes the
pending state durable and returns the counts, or — on any persistence-layer
error — triggers `db.rollback()`, which discards the whole in-flight batch,
and the exception is re-raised to the caller (`Except.error`). -/
def sync_spatial_audio_tracks (now : Datetime) (commitOk : Bool) (s : Session)
    (batch : List DiscoveredTrack) : Except Unit SyncStats × Session :=
  let st := processBatch now s.pending { tracks_added := 0, tracks_updated := 0 } batch
  if commitOk then (Except.ok st.2, ⟨st.1, st.1⟩)
  else (Except.error (), ⟨s.durable, s.durable⟩)

/-- An external id is present among the stored track rows. -/
def hasId (db : DB) (x : Option String) : Prop :=
  x ∈ db.tracks.map (fun r => r.apple_music_id)

lemma applyRegions_tracks (td : DiscoveredTrack) (tid : Nat) (db : DB) :
    (applyRegions td tid db).tracks = db.tracks := by
  cases h : td.region_availability <;> simp [applyRegions, h]

lemma applyRegions_nextId (td : DiscoveredTrack) (tid : Nat) (db : DB) :
    (applyRegions td tid db).nextId = db.nextId := by
  cases h : td.region_availability <;> simp [applyRegions, h]

lemma updateFirst_map_apple (now : Datetime) (td : DiscoveredTrack) :
    ∀ l : List TrackRow,
      (updateFirst (rowMatches td) (updateRow now td) l).map (fun r => r.apple_music_id)
        = l.map (fun r => r.apple_music_id) := by
  intro l
  induction l with
  | nil => rfl
  | cons x xs ih =>
    by_cases h : rowMatches td x = true
    · simp [updateFirst, h, updateRow]
    · simp [updateFirst, h, ih]

lemma updateFirst_map_id (now : Datetime) (td : DiscoveredTrack) :
    ∀ l : List TrackRow,
      (updateFirst (rowMatches td) (updateRow now td) l).map (fun r => r.id)
        = l.map (fun r => r.id) := by
  intro l
  induction l with
  | nil => rfl
  | cons x xs ih =>
    by_cases h : rowMatches td x = true
    · simp [updateFirst, h, updateRow]
    · simp [updateFirst, h, ih]

lemma updateFirst_length {α : Type} (p : α → Bool) (f : α → α) :
    ∀ l : List α, (updateFirst p f l).length = l.length := by
  intro l
  induction l with
  | nil => rfl
  | cons x xs ih =>
    by_cases h : p x = true <;> simp [updateFirst, h, ih]

lemma processTrack_hasId_mono (now : Datetime) (db : DB) (stats : SyncStats)
    (td : DiscoveredTrack) (x : Option String) (h : hasId db x) :
    hasId (processTrack now db stats td).1 x := by
  unfold hasId at h ⊢
  cases hf : db.tracks.find? (rowMatches td) with
  | some r =>
    simp only [processTrack, hf, applyRegions_tracks]
    rw [updateFirst_map_apple]
    exact h
  | none =>
    simp only [processTrack, hf, applyRegions_tracks]
    simp only [List.map_append, List.mem_append]
    exact Or.inl h

lemma processTrack_hasId_self (now : Datetime) (db : DB) (stats : SyncStats)
    (td : DiscoveredTrack) :
    hasId (processTrack now db stats td).1 td.apple_music_id := by
  unfold hasId
  cases hf : db.tracks.find? (rowMatches td) with
  | some r =>
    simp only [processTrack, hf, applyRegions_tracks]
    rw [updateFirst_map_apple]
    have hmem := List.mem_of_find?_eq_some hf
    have hp := List.find?_some hf
    have : r.apple_music_id = td.apple_music_id := by
      simpa [rowMatches] using hp
    exact this ▸ List.mem_map_of_mem _ hmem
  | none =>
    simp only [processTrack, hf, applyRegions_tracks]
    simp [newRow]

lemma processTrack_found (now : Datetime) (db : DB) (stats : SyncStats)
    (td : DiscoveredTrack) (h : hasId db td.apple_music_id) :
    (processTrack now db stats td).2
        = { stats with tracks_updated := stats.tracks_updated + 1 } ∧
    (processTrack now db stats td).1.tracks.length = db.tracks.length := by
  cases hf : db.tracks.find? (rowMatches td) with
  | some r =>
    simp [processTrack, hf, applyRegions_tracks, updateFirst_length]
  | none =>
    exfalso
    obtain ⟨r, hr, hx⟩ := List.mem_map.mp h
    have := List.find?_eq_none.mp hf r hr
    exact this (by simp [rowMatches, hx])

lemma processBatch_hasId_mono (now : Datetime) (batch : List DiscoveredTrack) :
    ∀ db stats x, hasId db x → hasId (processBatch now db stats batch).1 x := by
  induction batch with
  | nil => intro db stats x h; exact h
  | cons td rest ih =>
    intro db stats x h
    exact ih _ _ x (processTrack_hasId_mono now db stats td x h)

lemma processBatch_presence (now : Datetime) (batch : List DiscoveredTrack) :
    ∀ db stats, ∀ td ∈ batch,
      hasId (processBatch now db stats batch).1 td.apple_music_id := by
  induction batch with
  | nil => intro db stats td htd; simp at htd
  | cons hd rest ih =>
    intro db stats td htd
    rcases List.mem_cons.mp htd with rfl | htd'
    · exact processBatch_hasId_mono now rest _ _ _
        (processTrack_hasId_self now db stats td)
    · exact ih _ _ td htd'

lemma processBatch_all_found (now : Datetime) (batch : List DiscoveredTrack) :
    ∀ db stats, (∀ td ∈ batch, hasId db td.apple_music_id) →
      (processBatch now db stats batch).2
          = { stats with tracks_updated := stats.tracks_updated + batch.length } ∧
      (processBatch now db stats batch).1.tracks.length = db.tracks.length := by
  induction batch with
  | nil => intro db stats _; simp [processBatch]
  | cons td rest ih =>
    intro db stats hall
    have h1 := processTrack_found now db stats td (hall td (List.mem_cons_self _ _))
    have hrest : ∀ td' ∈ rest, hasId (processTrack now db stats td).1 td'.apple_music_id :=
      fun td' htd' => processTrack_hasId_mono now db stats td _
        (hall td' (List.mem_cons_of_mem _ htd'))
    obtain ⟨hstats, hlen⟩ := ih (processTrack now db stats td).1
      (processTrack now db stats td).2 hrest
    constructor
    · show (processBatch now (processTrack now db stats td).1
        (processTrack now db stats td).2 rest).2 = _
      rw [hstats, h1.1]
      simp [List.length_cons]
      omega
    · show (processBatch now (processTrack now db stats td).1
        (processTrack now db stats td).2 rest).1.tracks.length = _
      rw [hlen, h1.2]

/-- C1: for a discovery batch with pairwise-distinct external ids, two
successive successful `sync()` calls with the identical batch are idempotent:
after the first call every batch track is present in storage, and the second
call reports `tracks_updated` equal to the batch size and `tracks_added`
zero, inserting no new track row. -/
theorem sync_idempotent (now1 now2 : Datetime) (db : DB)
    (batch : List DiscoveredTrack)
    (hids : (batch.map (fun td => td.apple_music_id)).Nodup) :
    (∀ td ∈ batch,
      ∃ r ∈ (sync_spatial_audio_tracks now1 true ⟨db, db⟩ batch).2.durable.tracks,
        r.apple_music_id = td.apple_music_id) ∧
    (sync_spatial_audio_tracks now2 true
        (sync_spatial_audio_tracks now1 true ⟨db, db⟩ batch).2 batch).1
      = Except.ok { tracks_added := 0, tracks_updated := batch.length } ∧
    (sync_spatial_audio_tracks now2 true
        (sync_spatial_audio_tracks now1 true ⟨db, db⟩ batch).2
        batch).2.durable.tracks.length
      = (sync_spatial_audio_tracks now1 true ⟨db, db⟩ batch).2.durable.tracks.length := by
  have hpres : ∀ td ∈ batch,
      hasId (processBatch now1 db { tracks_added := 0, tracks_updated := 0 } batch).1
        td.apple_music_id :=
    fun td htd => processBatch_presence now1 batch db _ td htd
  have hfound := processBatch_all_found now2 batch
    (processBatch now1 db { tracks_added := 0, tracks_updated := 0 } batch).1
    { tracks_added := 0, tracks_updated := 0 } hpres
  refine ⟨?_, ?_, ?_⟩
  · show ∀ td ∈ batch,
      ∃ r ∈ (processBatch now1 db { tracks_added := 0, tracks_updated := 0 } batch).1.tracks,
        r.apple_music_id = td.apple_music_id
    intro td htd
    obtain ⟨r, hr, hx⟩ := List.mem_map.mp (hpres td htd)
    exact ⟨r, hr, hx⟩
  · show Except.ok (processBatch now2
        (processBatch now1 db { tracks_added := 0, tracks_updated := 0 } batch).1
        { tracks_added := 0, tracks_updated := 0 } batch).2
      = Except.ok { tracks_added := 0, tracks_updated := batch.length }
    rw [hfound.1]
    simp
  · show (processBatch now2
        (processBatch now1 db { tracks_added := 0, tracks_updated := 0 } batch).1
        { tracks_added := 0, tracks_updated := 0 } batch).1.tracks.length
      = (processBatch now1 db { tracks_added := 0, tracks_updated := 0 } batch).1.tracks.length
    exact hfound.2

/-- Witness for `sync_idempotent`: a one-track batch synced twice into an
initially empty store reports one update and zero additions on the second
call. -/
theorem sync_idempotent_witness :
    (sync_spatial_audio_tracks ⟨1⟩ true
        (sync_spatial_audio_tracks ⟨0⟩ true ⟨⟨[], [], 0⟩, ⟨[], [], 0⟩⟩
          [sampleTrack (some "A") "x"]).2
        [sampleTrack (some "A") "x"]).1
      = Except.ok { tracks_added := 0, tracks_updated := 1 } :=
  (sync_idempotent ⟨0⟩ ⟨1⟩ ⟨[], [], 0⟩ [sampleTrack (some "A") "x"]
    (by decide)).2.1

/-- C4: a `sync()` invocation whose batch-level commit fails rolls the entire
in-flight batch back — the durable store is unchanged by the invocation, the
session is reset to it — and the error propagates to the caller. -/
theorem sync_commit_failure_rolls_back (now : Datetime) (s : Session)
    (batch : List DiscoveredTrack) :
    (sync_spatial_audio_tracks now false s batch).1 = Except.error () ∧
    (sync_spatial_audio_tracks now false s batch).2.durable = s.durable ∧
    (sync_spatial_audio_tracks now false s batch).2.pending = s.durable := by
  simp [sync_spatial_audio_tracks]

/-! ## Region-availability replacement (claim about `scheduler.py` 310-325) -/

/-- The stored region-availability set of the track with surrogate id
`tid`. -/
def regionSet (db : DB) (tid : Nat) : List RegionRow :=
  db.regions.filter (fun g => g.track_id == tid)

/-- Database well-formedness maintained by the store: surrogate ids are
pairwise distinct and below the next id to be handed out. -/
def wfDB (db : DB) : Prop :=
  (db.tracks.map (fun r => r.id)).Nodup ∧ ∀ r ∈ db.tracks, r.id < db.nextId

lemma filter_delete_ne (a b : Nat) (hab : a ≠ b) (l : List RegionRow) :
    (l.filter (fun g => !(g.track_id == a))).filter (fun g => g.track_id == b)
      = l.filter (fun g => g.track_id == b) := by
  have hba : b ≠ a := fun hcon => hab hcon.symm
  induction l with
  | nil => rfl
  | cons g gs ih =>
    by_cases hg : g.track_id = b
    · have h1 : (g.track_id == a) = false := by
        simp [hg]; exact fun hcon => hab hcon.symm
      simp [List.filter_cons, h1, hg, ih, hba, hab]
    · by_cases h2 : g.track_id = a
      · simp [List.filter_cons, h2, hg, ih, hba, hab]
      · have h2' : (g.track_id == a) = false := by simp [h2]
        simp [List.filter_cons, h2', hg, ih, hba, hab]

lemma filter_delete_self (a : Nat) (l : List RegionRow) :
    (l.filter (fun g => !(g.track_id == a))).filter (fun g => g.track_id == a)
      = [] := by
  induction l with
  | nil => rfl
  | cons g gs ih =>
    by_cases hg : g.track_id = a
    · simp [List.filter_cons, hg, ih]
    · have hg' : (g.track_id == a) = false := by simp [hg]
      simp [List.filter_cons, hg', ih]

lemma filter_mkRegionRow_ne (a b : Nat) (hab : a ≠ b) (regs : List RegionRecord) :
    (regs.map (mkRegionRow a)).filter (fun g => g.track_id == b) = [] := by
  induction regs with
  | nil => rfl
  | cons g gs ih =>
    have h1 : ((mkRegionRow a g).track_id == b) = false := by
      simp [mkRegionRow]; exact hab
    simp [List.filter_cons, h1, ih]

lemma filter_mkRegionRow_self (a : Nat) (regs : List RegionRecord) :
    (regs.map (mkRegionRow a)).filter (fun g => g.track_id == a)
      = regs.map (mkRegionRow a) := by
  induction regs with
  | nil => rfl
  | cons g gs ih => simp [List.filter_cons, mkRegionRow, ih]

lemma regionSet_applyRegions_ne (td : DiscoveredTrack) (tid b : Nat) (db : DB)
    (hab : tid ≠ b) :
    regionSet (applyRegions td tid db) b = regionSet db b := by
  cases h : td.region_availability with
  | none => simp [applyRegions, h]
  | some regs =>
    simp only [applyRegions, h, regionSet, List.filter_append]
    rw [filter_delete_ne tid b hab, filter_mkRegionRow_ne tid b hab,
      List.append_nil]

lemma regionSet_applyRegions_self (td : DiscoveredTrack) (tid : Nat) (db : DB)
    (regs : List RegionRecord) (h : td.region_availability = some regs) :
    regionSet (applyRegions td tid db) tid = regs.map (mkRegionRow tid) := by
  simp only [applyRegions, h, regionSet, List.filter_append]
  rw [filter_delete_self, filter_mkRegionRow_self, List.nil_append]

lemma updateFirst_mem_of_neg {α : Type} (p : α → Bool) (f : α → α) (x : α) :
    ∀ l : List α, x ∈ l → p x = false → x ∈ updateFirst p f l := by
  intro l
  induction l with
  | nil => intro h; simp at h
  | cons y ys ih =>
    intro hmem hpx
    by_cases hy : p y = true
    · rcases List.mem_cons.mp hmem with rfl | h'
      · rw [hpx] at hy; exact Bool.noConfusion hy
      · simp [updateFirst, hy]
        exact Or.inr h'
    · simp only [updateFirst, if_neg hy]
      rcases List.mem_cons.mp hmem with rfl | h'
      · exact List.mem_cons_self _ _
      · exact List.mem_cons_of_mem _ (ih h' hpx)

lemma updateFirst_mem_update {α : Type} (p : α → Bool) (f : α → α) :
    ∀ l : List α, ∀ r : α, l.find? p = some r → f r ∈ updateFirst p f l := by
  intro l
  induction l with
  | nil => intro r h; simp at h
  | cons y ys ih =>
    intro r h
    by_cases hy : p y = true
    · rw [List.find?_cons_of_pos _ hy] at h
      injection h with h
      subst h
      simp [updateFirst, hy]
    · rw [List.find?_cons_of_neg _ (by simpa using hy)] at h
      simp only [updateFirst, if_neg hy]
      exact List.mem_cons_of_mem _ (ih r h)

lemma processTrack_wf (now : Datetime) (db : DB) (stats : SyncStats)
    (td : DiscoveredTrack) (h : wfDB db) :
    wfDB (processTrack now db stats td).1 := by
  obtain ⟨h1, h2⟩ := h
  cases hf : db.tracks.find? (rowMatches td) with
  | some r0 =>
    refine ⟨?_, ?_⟩
    · simp only [processTrack, hf, applyRegions_tracks, updateFirst_map_id]
      exact h1
    · simp only [processTrack, hf, applyRegions_tracks, applyRegions_nextId]
      intro r hr
      have hmm : r.id ∈ (updateFirst (rowMatches td) (updateRow now td)
          db.tracks).map (fun q => q.id) := List.mem_map_of_mem _ hr
      rw [updateFirst_map_id] at hmm
      obtain ⟨q, hq, hqid⟩ := List.mem_map.mp hmm
      exact hqid ▸ h2 q hq
  | none =>
    refine ⟨?_, ?_⟩
    · simp only [processTrack, hf, applyRegions_tracks, List.map_append]
      refine List.Nodup.append h1 (List.nodup_singleton _) ?_
      intro a ha hb
      obtain ⟨q, hq, hqid⟩ := List.mem_map.mp ha
      simp only [List.map_cons, List.map_nil, List.mem_singleton, newRow] at hb
      exact absurd (h2 q hq) (by rw [hqid, hb]; exact lt_irrefl _)
    · simp only [processTrack, hf, applyRegions_tracks, applyRegions_nextId]
      intro r hr
      rcases List.mem_append.mp hr with h' | h'
      · exact Nat.lt_succ_of_lt (h2 r h')
      · simp only [List.mem_singleton] at h'
        subst h'
        exact Nat.lt_succ_self _

lemma processTrack_keeps (now : Datetime) (db : DB) (stats : SyncStats)
    (td' : DiscoveredTrack) (r : TrackRow) (hwf : wfDB db) (hr : r ∈ db.tracks)
    (hne : td'.apple_music_id ≠ r.apple_music_id) :
    r ∈ (processTrack now db stats td').1.tracks ∧
    regionSet (processTrack now db stats td').1 r.id = regionSet db r.id := by
  obtain ⟨h1, h2⟩ := hwf
  have hpr : rowMatches td' r = false := by
    simp only [rowMatches, beq_eq_false_iff_ne, ne_eq]
    exact fun hcon => hne hcon.symm
  cases hf : db.tracks.find? (rowMatches td') with
  | some r0 =>
    have hr0mem := List.mem_of_find?_eq_some hf
    have hr0p : r0.apple_music_id = td'.apple_music_id := by
      have := List.find?_some hf
      simpa [rowMatches] using this
    have hid_ne : r0.id ≠ r.id := by
      intro hcon
      have heq : r0 = r := List.inj_on_of_nodup_map h1 hr0mem hr hcon
      rw [heq] at hr0p
      exact hne hr0p.symm
    refine ⟨?_, ?_⟩
    · simp only [processTrack, hf, applyRegions_tracks]
      exact updateFirst_mem_of_neg _ _ _ _ hr hpr
    · simp only [processTrack, hf]
      rw [regionSet_applyRegions_ne _ _ _ _ hid_ne]
      rfl
  | none =>
    have hid_ne : db.nextId ≠ r.id := by
      intro hcon
      exact absurd (h2 r hr) (by rw [hcon]; exact lt_irrefl _)
    refine ⟨?_, ?_⟩
    · simp only [processTrack, hf, applyRegions_tracks]
      exact List.mem_append_left _ hr
    · simp only [processTrack, hf, newRow]
      rw [regionSet_applyRegions_ne _ _ _ _ hid_ne]
      rfl

lemma processTrack_establishes (now : Datetime) (db : DB) (stats : SyncStats)
    (td : DiscoveredTrack) (hwf : wfDB db) (regs : List RegionRecord)
    (hregs : td.region_availability = some regs) :
    ∃ r ∈ (processTrack now db stats td).1.tracks,
      r.apple_music_id = td.apple_music_id ∧
      regionSet (processTrack now db stats td).1 r.id
        = regs.map (mkRegionRow r.id) := by
  cases hf : db.tracks.find? (rowMatches td) with
  | some r0 =>
    have hr0p : r0.apple_music_id = td.apple_music_id := by
      have := List.find?_some hf
      simpa [rowMatches] using this
    refine ⟨updateRow now td r0, ?_, ?_, ?_⟩
    · simp only [processTrack, hf, applyRegions_tracks]
      exact updateFirst_mem_update _ _ _ _ hf
    · show r0.apple_music_id = td.apple_music_id
      exact hr0p
    · simp only [processTrack, hf, updateRow]
      exact regionSet_applyRegions_self td r0.id _ regs hregs
  | none =>
    refine ⟨newRow now db.nextId td, ?_, rfl, ?_⟩
    · simp only [processTrack, hf, applyRegions_tracks]
      exact List.mem_append_right _ (List.mem_singleton_self _)
    · simp only [processTrack, hf]
      exact regionSet_applyRegions_self td _ _ regs hregs

lemma processBatch_wf (now : Datetime) (batch : List DiscoveredTrack) :
    ∀ db stats, wfDB db → wfDB (processBatch now db stats batch).1 := by
  induction batch with
  | nil => intro db stats h; exact h
  | cons td rest ih =>
    intro db stats h
    exact ih _ _ (processTrack_wf now db stats td h)

lemma processBatch_keeps (now : Datetime) (rest : List DiscoveredTrack) :
    ∀ db stats (r : TrackRow) (regs : List RegionRecord), wfDB db →
      r ∈ db.tracks → regionSet db r.id = regs.map (mkRegionRow r.id) →
      (∀ td' ∈ rest, td'.apple_music_id ≠ r.apple_music_id) →
      r ∈ (processBatch now db stats rest).1.tracks ∧
      regionSet (processBatch now db stats rest).1 r.id
        = regs.map (mkRegionRow r.id) := by
  induction rest with
  | nil => intro db stats r regs _ hr hreg _; exact ⟨hr, hreg⟩
  | cons td' rest ih =>
    intro db stats r regs hwf hr hreg hall
    obtain ⟨hr', hreg'⟩ := processTrack_keeps now db stats td' r hwf hr
      (hall td' (List.mem_cons_self _ _))
    exact ih _ _ r regs (processTrack_wf now db stats td' hwf) hr'
      (hreg'.trans hreg) (fun u hu => hall u (List.mem_cons_of_mem _ hu))

lemma processBatch_append (now : Datetime) (xs : List DiscoveredTrack) :
    ∀ ys db stats, processBatch now db stats (xs ++ ys)
      = processBatch now (processBatch now db stats xs).1
          (processBatch now db stats xs).2 ys := by
  induction xs with
  | nil => intro ys db stats; rfl
  | cons td rest ih =>
    intro ys db stats
    show processBatch now _ _ (rest ++ ys) = _
    rw [ih]
    rfl

/-- C7: after a successful `sync()` of a batch with pairwise-distinct
external ids against a well-formed store, every batch track carrying region
data has its stored region-availability set replaced by exactly the supplied
records — one row per supplied storefront, no stale row surviving, and (the
supplied storefronts being distinct) at most one row per (track, storefront)
pair. -/
theorem sync_region_replacement (now : Datetime) (db : DB)
    (batch : List DiscoveredTrack)
    (hwf1 : (db.tracks.map (fun r => r.id)).Nodup)
    (hwf2 : ∀ r ∈ db.tracks, r.id < db.nextId)
    (hbatch : (batch.map (fun td => td.apple_music_id)).Nodup)
    (td : DiscoveredTrack) (htd : td ∈ batch)
    (regs : List RegionRecord) (hregs : td.region_availability = some regs)
    (hsf : (regs.map (fun g => g.storefront)).Nodup) :
    ∃ r ∈ (sync_spatial_audio_tracks now true ⟨db, db⟩ batch).2.durable.tracks,
      r.apple_music_id = td.apple_music_id ∧
      regionSet (sync_spatial_audio_tracks now true ⟨db, db⟩ batch).2.durable r.id
        = regs.map (mkRegionRow r.id) ∧
      ((regionSet (sync_spatial_audio_tracks now true ⟨db, db⟩ batch).2.durable
          r.id).map (fun g => g.storefront)).Nodup := by
  obtain ⟨pre, post, hsplit⟩ := List.append_of_mem htd
  subst hsplit
  have hdur : (sync_spatial_audio_tracks now true ⟨db, db⟩
        (pre ++ td :: post)).2.durable
      = (processBatch now
          (processTrack now
            (processBatch now db { tracks_added := 0, tracks_updated := 0 } pre).1
            (processBatch now db { tracks_added := 0, tracks_updated := 0 } pre).2
            td).1
          (processTrack now
            (processBatch now db { tracks_added := 0, tracks_updated := 0 } pre).1
            (processBatch now db { tracks_added := 0, tracks_updated := 0 } pre).2
            td).2
          post).1 := by
    show (processBatch now db { tracks_added := 0, tracks_updated := 0 }
        (pre ++ td :: post)).1 = _
    rw [processBatch_append]
    rfl
  rw [hdur]
  have hwf0 : wfDB (processBatch now db
      { tracks_added := 0, tracks_updated := 0 } pre).1 :=
    processBatch_wf now pre db _ ⟨hwf1, hwf2⟩
  obtain ⟨r, hrmem, hrapple, hrreg⟩ := processTrack_establishes now
    (processBatch now db { tracks_added := 0, tracks_updated := 0 } pre).1
    (processBatch now db { tracks_added := 0, tracks_updated := 0 } pre).2
    td hwf0 regs hregs
  have hpostne : ∀ td' ∈ post, td'.apple_music_id ≠ r.apple_music_id := by
    rw [List.map_append, List.map_cons] at hbatch
    have h3 : td.apple_music_id ∉ post.map (fun u => u.apple_music_id) :=
      (List.nodup_cons.mp (List.nodup_append.mp hbatch).2.1).1
    intro td' htd' hcon
    exact h3 (by
      rw [← hrapple, ← hcon]
      exact List.mem_map_of_mem _ htd')
  have hwfr : wfDB (processTrack now
      (processBatch now db { tracks_added := 0, tracks_updated := 0 } pre).1
      (processBatch now db { tracks_added := 0, tracks_updated := 0 } pre).2
      td).1 := processTrack_wf now _ _ td hwf0
  have hkeep := processBatch_keeps now post
    (processTrack now
      (processBatch now db { tracks_added := 0, tracks_updated := 0 } pre).1
      (processBatch now db { tracks_added := 0, tracks_updated := 0 } pre).2 td).1
    (processTrack now
      (processBatch now db { tracks_added := 0, tracks_updated := 0 } pre).1
      (processBatch now db { tracks_added := 0, tracks_updated := 0 } pre).2 td).2
    r regs hwfr hrmem hrreg hpostne
  refine ⟨r, hkeep.1, hrapple, hkeep.2, ?_⟩
  rw [hkeep.2, List.map_map]
  simpa [Function.comp, mkRegionRow] using hsf

/-- Witness for `sync_region_replacement`: syncing a one-track batch carrying
one US region record into an empty well-formed store yields a row whose
stored availability set is exactly that record. -/
theorem sync_region_replacement_witness :
    ∃ r ∈ (sync_spatial_audio_tracks ⟨0⟩ true ⟨⟨[], [], 0⟩, ⟨[], [], 0⟩⟩
        [{ sampleTrack (some "A") "x" with
            region_availability := some [⟨"us", true, "Dolby Atmos"⟩] }]).2.durable.tracks,
      r.apple_music_id = some "A" ∧
      regionSet (sync_spatial_audio_tracks ⟨0⟩ true ⟨⟨[], [], 0⟩, ⟨[], [], 0⟩⟩
          [{ sampleTrack (some "A") "x" with
              region_availability := some [⟨"us", true, "Dolby Atmos"⟩] }]).2.durable r.id
        = [⟨"us", true, "Dolby Atmos"⟩].map (mkRegionRow r.id) ∧
      ((regionSet (sync_spatial_audio_tracks ⟨0⟩ true ⟨⟨[], [], 0⟩, ⟨[], [], 0⟩⟩
          [{ sampleTrack (some "A") "x" with
              region_availability := some [⟨"us", true, "Dolby Atmos"⟩] }]).2.durable
          r.id).map (fun g => g.storefront)).Nodup :=
  sync_region_replacement ⟨0⟩ ⟨[], [], 0⟩
    [{ sampleTrack (some "A") "x" with
        region_availability := some [⟨"us", true, "Dolby Atmos"⟩] }]
    (by decide) (by intro r hr; simp at hr) (by decide)
    { sampleTrack (some "A") "x" with
        region_availability := some [⟨"us", true, "Dolby Atmos"⟩] }
    (List.mem_singleton_self _) [⟨"us", true, "Dolby Atmos"⟩] rfl (by decide)

/-! ## Silent-upgrade check (`scheduled_silent_upgrade_check`, `scheduler.py` 99-141) -/

/-- Outcome of re-fetching one track by external id inside the per-track
`try` block: an exception raised anywhere in the block (caught and logged,
the loop continues), an empty catalog response (`if not tracks: continue`),
or the first returned track's data. -/
inductive RefetchResult where
  | fails
  | missing
  | found (td : TrackData)

/-- The net effect of one loop iteration of `scheduled_silent_upgrade_check`
(`scheduler.py`, lines 113-133) on one stored row.  Rows whose format is
already `"Dolby Atmos"` are excluded by the query filter (line 107); a falsy
external id is skipped (line 114); a re-fetch classified as Dolby Atmos sets
`format`, `atmos_release_date := now` (detection time) and `updated_at :=
now`; everything else leaves the row untouched.  The returned flag records
whether the row was upgraded. -/
def upgradeStep (oracle : String → RefetchResult) (now : Datetime)
    (t : TrackRow) : TrackRow × Bool :=
  if t.format = "Dolby Atmos" then (t, false)
  else
    match t.apple_music_id with
    | none => (t, false)
    | some tid =>
      if tid = "" then (t, false)
      else
        match oracle tid with
        | .fails => (t, false)
        | .missing => (t, false)
        | .found td =>
          if (check_spatial_audio_support td).has_dolby_atmos then
            ({ t with
                format := "Dolby Atmos"
                atmos_release_date := some now
                updated_at := now }, true)
          else (t, false)

/-- Embedding of `scheduled_silent_upgrade_check` (`scheduler.py`, lines 99-141),
abstracted over the catalog re-fetch (`oracle`): every stored row passes
through its own independent `upgradeStep`, and the upgraded count is
returned alongside the committed store. -/
def scheduled_silent_upgrade_check (oracle : String → RefetchResult)
    (now : Datetime) (db : DB) : DB × Nat :=
  let stepped := db.tracks.map (upgradeStep oracle now)
  ({ db with tracks := stepped.map Prod.fst },
   (stepped.filter (fun s => s.2)).length)

/-- C8: the silent-upgrade check keeps the store the same size; every stored
track that is not currently `"Dolby Atmos"`, has a truthy external id, and
whose re-fetch classifies as having Dolby Atmos ends up stored with format
`"Dolby Atmos"`, `atmos_release_date` equal to the check time (not the
original release date) and `updated_at` bumped — regardless of how the
re-fetch behaves on any other track, so an individual re-check failure never
aborts the rest of the batch; and a track whose own re-fetch raises is left
unchanged in the store. -/
theorem silent_upgrade_spec (oracle : String → RefetchResult) (now : Datetime)
    (db : DB) :
    (scheduled_silent_upgrade_check oracle now db).1.tracks.length
      = db.tracks.length ∧
    (∀ t ∈ db.tracks, ∀ tid, t.format ≠ "Dolby Atmos" →
      t.apple_music_id = some tid → tid ≠ "" → ∀ td, oracle tid = .found td →
      (check_spatial_audio_support td).has_dolby_atmos = true →
      { t with
          format := "Dolby Atmos"
          atmos_release_date := some now
          updated_at := now } ∈ (scheduled_silent_upgrade_check oracle now db).1.tracks) ∧
    (∀ t ∈ db.tracks, ∀ tid, t.apple_music_id = some tid →
      oracle tid = .fails →
      t ∈ (scheduled_silent_upgrade_check oracle now db).1.tracks) := by
  refine ⟨?_, ?_, ?_⟩
  · simp [scheduled_silent_upgrade_check]
  · intro t ht tid hfmt hid hne td horacle hatmos
    have hstep : (upgradeStep oracle now t).1
        = { t with
            format := "Dolby Atmos"
            atmos_release_date := some now
            updated_at := now } := by
      simp [upgradeStep, hfmt, hid, hne, horacle, hatmos]
    have : (upgradeStep oracle now t).1
        ∈ (db.tracks.map (upgradeStep oracle now)).map Prod.fst := by
      rw [List.map_map]
      exact List.mem_map_of_mem _ ht
    rw [hstep] at this
    simpa [scheduled_silent_upgrade_check] using this
  · intro t ht tid hid horacle
    have hstep : (upgradeStep oracle now t).1 = t := by
      by_cases hfmt : t.format = "Dolby Atmos"
      · simp [upgradeStep, hfmt]
      · by_cases hne : tid = ""
        · simp [upgradeStep, hfmt, hid, hne]
        · simp [upgradeStep, hfmt, hid, hne, horacle]
    have : (upgradeStep oracle now t).1
        ∈ (db.tracks.map (upgradeStep oracle now)).map Prod.fst := by
      rw [List.map_map]
      exact List.mem_map_of_mem _ ht
    rw [hstep] at this
    simpa [scheduled_silent_upgrade_check] using this

/-- A concrete stored row used by the witness: a Stereo track. -/
def stereoRow : TrackRow :=
  { id := 0
    title := "t"
    artist := "a"
    album := "b"
    format := "Stereo"
    platform := "Apple Music"
    release_date := ⟨0⟩
    atmos_release_date := none
    album_art := "🎵"
    music_link := none
    apple_music_id := some "X"
    extra_metadata := { genre := []
                        duration_ms := none
                        isrc := none
                        audio_variants := .vlist []
                        artwork_url := none
                        composer := none
                        track_number := none
                        disc_number := none }
    discovered_at := ⟨0⟩
    updated_at := ⟨0⟩ }

/-- A re-fetch oracle that always returns a track with a Dolby Atmos audio
variant. -/
def atmosOracle : String → RefetchResult :=
  fun _ => .found { attributes := some { audioVariants := some (.vlist ["dolby atmos"]) } }

/-- Witness for `silent_upgrade_spec`: a Stereo row whose re-fetch reports a
Dolby Atmos variant is stored upgraded, with `atmos_release_date` equal to
the check time. -/
theorem silent_upgrade_spec_witness :
    { stereoRow with
        format := "Dolby Atmos"
        atmos_release_date := some ⟨5⟩
        updated_at := ⟨5⟩ }
      ∈ (scheduled_silent_upgrade_check atmosOracle ⟨5⟩ ⟨[stereoRow], [], 1⟩).1.tracks :=
  (silent_upgrade_spec atmosOracle ⟨5⟩ ⟨[stereoRow], [], 1⟩).2.1 stereoRow
    (List.mem_singleton_self _) "X" (by decide) rfl (by decide)
    { attributes := some { audioVariants := some (.vlist ["dolby atmos"]) } }
    rfl (by decide)

end SpatialSelecta
